import Mathlib

/-!
Shallow embedding of the NCA (Nintendo Container Archive) header parsing core
of `src/format/nca/mod.rs`. Bytes are modelled as `Nat`, byte buffers as
`List Nat`. The collaborators that live outside this file's source scope
(the `pki` key-set store, the AES-XTS cipher primitive, the `binrw`
fixed-offset header decoder and the key-unwrap operations) are modelled from
the specification as abstract parameters gathered in the `Prims` structure.

Rust control flow is made explicit: functions that can return `Err` or panic
(`todo!`, `unimplemented!`, `assert_eq!`, `unreachable!`) produce an
`NResult`, whose `panic` constructor is distinct from the `err` constructor,
mirroring the difference between a Rust panic and a returned `Result::Err`.
-/

set_option autoImplicit false

namespace Linkle

/-- Panic outcomes of the Rust code: `todo!()`, `unimplemented!(msg)`,
`assert_eq!` failures and `unreachable!()`. -/
inductive PanicKind where
  | todo
  | unimplemented (msg : String)
  | assertViolation (msg : String)
  | unreachableHit
  deriving DecidableEq, Repr

/-- Error values returned by the code (`crate::error::Error` variants actually
constructed in `mod.rs`, plus the I/O error propagated by `read_exact`). -/
inductive NError where
  | ioShortRead
  | missingKey (key_name : String)
  | ncaParse (key_name : String)
  deriving DecidableEq, Repr

/-- Result of running a fallible / panicking Rust function. -/
inductive NResult (α : Type) where
  | ok (val : α)
  | err (e : NError)
  | panic (p : PanicKind)
  deriving DecidableEq, Repr

namespace NResult

def bind {α β : Type} : NResult α → (α → NResult β) → NResult β
  | .ok a, f => f a
  | .err e, _ => .err e
  | .panic p, _ => .panic p

def map {α β : Type} (f : α → β) : NResult α → NResult β
  | .ok a => .ok (f a)
  | .err e => .err e
  | .panic p => .panic p

@[simp] theorem bind_ok {α β : Type} (a : α) (f : α → NResult β) :
    (NResult.ok a).bind f = f a := rfl

@[simp] theorem bind_err {α β : Type} (e : NError) (f : α → NResult β) :
    (NResult.err (α := α) e).bind f = .err e := rfl

@[simp] theorem bind_panic {α β : Type} (p : PanicKind) (f : α → NResult β) :
    (NResult.panic (α := α) p).bind f = .panic p := rfl

@[simp] theorem map_ok {α β : Type} (f : α → β) (a : α) :
    (NResult.ok a).map f = .ok (f a) := rfl

@[simp] theorem map_err {α β : Type} (f : α → β) (e : NError) :
    (NResult.err (α := α) e).map f = .err e := rfl

@[simp] theorem map_panic {α β : Type} (f : α → β) (p : PanicKind) :
    (NResult.panic (α := α) p).map f = .panic p := rfl

end NResult

/-- `KeyType` of `structures.rs` as used by `get_key_area_key`. -/
inductive KeyType where
  | application
  | ocean
  | system
  deriving DecidableEq, Repr

/-- `NcaFormat` of `mod.rs`. -/
inductive NcaFormat where
  | nca3
  | nca2
  | nca0
  deriving DecidableEq, Repr

/-- A raw section-table entry of the raw header (`structures.rs`, fields as
consumed by `Nca::from_file`). -/
structure RawSectionEntry where
  media_start_offset : Nat
  media_end_offset : Nat
  unknown1 : Nat
  unknown2 : Nat
  deriving DecidableEq, Repr

/-- The `Pfs0` superblock variant of `RawSuperblock` (fields as consumed by
`Nca::from_file`). -/
structure RawPfs0Superblock where
  master_hash : List Nat
  block_size : Nat
  hash_table_offset : Nat
  hash_table_size : Nat
  pfs0_offset : Nat
  pfs0_size : Nat
  deriving DecidableEq, Repr

/-- `RawSuperblock`: the superblock union discriminant. Besides `Pfs0` the
source match in `Nca::from_file` treats every other discriminant (such as the
commented-out `RomFs`) as `unreachable!`. -/
inductive RawSuperblock where
  | pfs0 (s : RawPfs0Superblock)
  | romFs
  deriving DecidableEq, Repr

/-- A raw per-section FS header (fields as consumed by `Nca::from_file`). -/
structure RawFsHeader where
  version : Nat
  crypt_type : Nat
  superblock : RawSuperblock
  section_ctr : Nat
  deriving DecidableEq, Repr

/-- Modelled from the spec: the Raw Header Schema record (the `RawNca` struct
of the `structures` module, which is not part of the sources in scope). Field
set taken from the fields `mod.rs` reads: magic, both signature blobs,
gamecard flag, content type, both crypto-type bytes, key type, size, title id,
sdk version, rights id, the two wrapped key blobs, the 4 section entries and
the 4 optional FS headers. -/
structure RawNca where
  magic : List Nat
  fixed_key_sig : List Nat
  npdm_sig : List Nat
  is_gamecard : Nat
  content_type : Nat
  crypto_type : Nat
  key_type : KeyType
  nca_size : Nat
  title_id : Nat
  sdk_version : Nat
  crypto_type2 : Nat
  rights_id : List Nat
  encrypted_xts_key : List Nat
  encrypted_ctr_key : List Nat
  section_entries : List RawSectionEntry
  fs_headers : List (Option RawFsHeader)
  deriving DecidableEq, Repr

/-- `FsType` of `mod.rs`: the decoded filesystem-type variant. -/
inductive FsType where
  | pfs0 (master_hash : List Nat) (block_size : Nat) (hash_table_offset : Nat)
      (hash_table_size : Nat) (pfs0_offset : Nat) (pfs0_size : Nat)
  | romFs
  deriving DecidableEq, Repr

/-- `SectionJson` of `mod.rs`. The `CryptoType` tag is kept as the raw byte
(the conversion is an external collaborator). -/
structure SectionJson where
  media_start_offset : Nat
  media_end_offset : Nat
  unknown1 : Nat
  unknown2 : Nat
  crypto : Nat
  fstype : FsType
  nounce : Nat
  deriving DecidableEq, Repr

/-- `NcaJson` of `mod.rs`. Signature blobs and derived keys are opaque values;
the `ContentType` tag is kept as the raw byte. -/
structure NcaJson where
  format : NcaFormat
  sig : List Nat
  npdm_sig : List Nat
  is_gamecard : Bool
  content_type : Nat
  key_revision : Nat
  key_type : KeyType
  nca_size : Nat
  title_id : Nat
  sdk_version : Nat
  xts_key : Nat
  ctr_key : Nat
  rights_id : Option (List Nat)
  sections : List (Option SectionJson)
  deriving DecidableEq, Repr

/-- `Nca<R>` of `mod.rs`: the container handle, owning the rest of the stream
(positioned past the 0xC00 header bytes) and the decoded description. -/
structure Nca where
  stream : List Nat
  json : NcaJson
  deriving DecidableEq, Repr

/-- Modelled from the spec: the key-set store (`pki::Keys`, outside the
sources in scope). `header_key` is the single fixed system key; the three
key-area tables are indexable tables of optional keys keyed by revision.
Keys themselves are opaque tokens modelled as `Nat`. -/
structure Keys where
  header_key : Option Nat
  key_area_key_application : Nat → Option Nat
  key_area_key_ocean : Nat → Option Nat
  key_area_key_system : Nat → Option Nat

/-- Modelled from the spec: the external collaborator primitives.
`xtsSector` is the per-sector XTS decryption primitive (key, sector index,
one sector of bytes); the spec describes header decryption as uniform
per-sector XTS with a continuing sector counter. `deriveXts` and `deriveKey`
are the key-unwrap operations of `pki`. `readLe` is the `binrw` fixed-offset
decode of the 0xC00-byte decrypted buffer into the raw header record. -/
structure Prims where
  xtsSector : Nat → Nat → List Nat → List Nat
  deriveXts : Nat → List Nat → NResult Nat
  deriveKey : Nat → List Nat → NResult Nat
  readLe : List Nat → RawNca

/-- Modelled from the spec: `AesXtsKey::decrypt(buffer, sector, sector_size)`
decrypts the buffer sector by sector, starting at the given sector index, by
applying the per-sector primitive to each consecutive `sector_size`-byte
chunk. -/
def xtsDecrypt (prim : Nat → Nat → List Nat → List Nat) (key : Nat)
    (buf : List Nat) (sector : Nat) (sector_size : Nat) : List Nat :=
  ((List.range (buf.length / sector_size)).map
    (fun i => prim key (sector + i) ((buf.drop (i * sector_size)).take sector_size))).flatten

/-- The magic bytes of the three recognized formats. -/
def ncaMagic3 : List Nat := [0x4E, 0x43, 0x41, 0x33]

def ncaMagic2 : List Nat := [0x4E, 0x43, 0x41, 0x32]

def ncaMagic0 : List Nat := [0x4E, 0x43, 0x41, 0x30]

/-- `{:02x}` formatting of a byte value: lowercase hex, zero-padded to two
digits. -/
def hexByte (n : Nat) : String :=
  let s := String.mk (Nat.toDigits 16 n)
  if n < 16 then String.append "0" s else s

/-- `get_key_area_key` of `mod.rs`: select one of the three key-area tables
by `key_type`, index it by `key_version`; a missing entry produces a
`MissingKey` error whose name is always formatted with the
`key_area_key_application_` prefix (the source hardcodes the family name in
the `format!` string regardless of `key_type`). -/
def get_key_area_key (pki : Keys) (key_version : Nat) (key_type : KeyType) :
    NResult Nat :=
  let key := match key_type with
    | .application => pki.key_area_key_application key_version
    | .ocean => pki.key_area_key_ocean key_version
    | .system => pki.key_area_key_system key_version
  match key with
  | some k => .ok k
  | none => .err (.missingKey (String.append "key_area_key_application_" (hexByte key_version)))

/-- `get_master_key_revision` of `mod.rs`:
`max(crypto_type2, crypto_type).saturating_sub(1)`. On `Nat`, subtraction is
saturating. -/
def get_master_key_revision (crypto_type : Nat) (crypto_type2 : Nat) : Nat :=
  max crypto_type2 crypto_type - 1

/-- The 4-byte magic extracted by `decrypt_header`: bytes `[0x200, 0x204)` of
the first 0x400 bytes of the header after in-place XTS decryption with the
header key, sector size 0x200, starting at sector 0. -/
def decrypted_magic (env : Prims) (header_key : Nat) (stream : List Nat) : List Nat :=
  ((xtsDecrypt env.xtsSector header_key ((stream.take 0xC00).take 0x400) 0 0x200).drop
    0x200).take 4

/-- `decrypt_header` of `mod.rs`. Reads exactly 0xC00 bytes (a short read is
a fatal I/O error), requires the header key, decrypts the first 0x400 bytes
with sector size 0x200 starting at sector 0, inspects bytes `[0x200, 0x204)`
as the magic, and branches: `NCA3` re-decrypts the whole 0xC00 bytes from the
original ciphertext and decodes them as the raw header record; `NCA2` hits
`todo!()`; `NCA0` hits `unimplemented!`; anything else is a parse error.
Also returns the rest of the stream (the handle is positioned past the
header). -/
def decrypt_header (env : Prims) (pki : Keys) (stream : List Nat) :
    NResult (RawNca × List Nat) :=
  if stream.length < 0xC00 then .err .ioShortRead
  else
    match pki.header_key with
    | none => .err (.missingKey "header_key")
    | some header_key =>
      let header := stream.take 0xC00
      let magic := decrypted_magic env header_key stream
      if magic = ncaMagic3 then
        .ok (env.readLe (xtsDecrypt env.xtsSector header_key header 0 0x200),
          stream.drop 0xC00)
      else if magic = ncaMagic2 then .panic .todo
      else if magic = ncaMagic0 then
        .panic (.unimplemented "NCA0 parsing is not implemented yet")
      else .err (.ncaParse "header_key")

/-- The magic-to-format-tag match at the top of `Nca::from_file`; any other
magic is `unreachable!()`. -/
def formatOf (magic : List Nat) : NResult NcaFormat :=
  if magic = ncaMagic3 then .ok .nca3
  else if magic = ncaMagic2 then .ok .nca2
  else if magic = ncaMagic0 then .ok .nca0
  else .panic .unreachableHit

/-- The `SectionJson` built by the section loop of `Nca::from_file` for a
present FS header whose superblock is `Pfs0`. -/
def mkSectionJson (se : RawSectionEntry) (fs : RawFsHeader)
    (s : RawPfs0Superblock) : SectionJson :=
  { crypto := fs.crypt_type
    fstype := .pfs0 s.master_hash s.block_size s.hash_table_offset
      s.hash_table_size s.pfs0_offset s.pfs0_size
    nounce := fs.section_ctr
    media_start_offset := se.media_start_offset
    media_end_offset := se.media_end_offset
    unknown1 := se.unknown1
    unknown2 := se.unknown2 }

/-- The section-decode loop of `Nca::from_file`, over the zipped
`(section_entry, fs_header)` pairs, in index order. An absent FS header
leaves the slot `None`. A present FS header first hits the
`unimplemented!("Rights ID")` panic when the rights id is set, then the
`assert_eq!(fs.version, 2)` check, then the superblock match whose non-`Pfs0`
arms are `unreachable!()`. -/
def parse_sections (has_rights_id : Bool) :
    List (RawSectionEntry × Option RawFsHeader) →
      NResult (List (Option SectionJson))
  | [] => .ok []
  | (_, none) :: rest =>
    (parse_sections has_rights_id rest).map (fun l => none :: l)
  | (se, some fs) :: rest =>
    if has_rights_id then .panic (.unimplemented "Rights ID")
    else if fs.version = 2 then
      match fs.superblock with
      | .pfs0 s =>
        (parse_sections has_rights_id rest).map
          (fun l => some (mkSectionJson se fs s) :: l)
      | .romFs => .panic .unreachableHit
    else .panic (.assertViolation "Invalid NCA FS Header version")

/-- `Nca::from_file` of `mod.rs`: decrypt the header, map the magic to a
format tag, compute the master-key revision, test the rights id, look up the
key-area key (before the rights-id branch), derive the two working keys (or
hit `unimplemented!("Rights ID")`), decode the section table, and assemble
the container handle. -/
def Nca.from_file (env : Prims) (pki : Keys) (stream : List Nat) : NResult Nca :=
  (decrypt_header env pki stream).bind fun hr =>
  (formatOf hr.1.magic).bind fun format =>
  let header := hr.1
  let master_key_revision :=
    get_master_key_revision header.crypto_type header.crypto_type2
  let has_rights_id : Bool := decide (header.rights_id ≠ List.replicate 0x10 0)
  (get_key_area_key pki master_key_revision header.key_type).bind fun key_area_key =>
  (if !has_rights_id then
      (env.deriveXts key_area_key header.encrypted_xts_key).bind fun xk =>
        (env.deriveKey key_area_key header.encrypted_ctr_key).map fun ck => (xk, ck)
    else .panic (.unimplemented "Rights ID")).bind fun dk =>
  (parse_sections has_rights_id (header.section_entries.zip header.fs_headers)).bind
    fun sections =>
  .ok {
    stream := hr.2
    json := {
      format := format
      sig := header.fixed_key_sig
      npdm_sig := header.npdm_sig
      is_gamecard := header.is_gamecard != 0
      content_type := header.content_type
      key_revision := master_key_revision
      key_type := header.key_type
      nca_size := header.nca_size
      title_id := header.title_id
      sdk_version := header.sdk_version
      xts_key := dk.1
      ctr_key := dk.2
      rights_id := none
      sections := sections } }

/-! ### Helper lemmas about the sector-wise XTS model -/

theorem xtsDecrypt_append (prim : Nat → Nat → List Nat → List Nat) (key : Nat)
    (b1 b2 : List Nat) (s ss m : Nat) (hss : 0 < ss) (hb1 : b1.length = ss * m) :
    xtsDecrypt prim key (b1 ++ b2) s ss =
      xtsDecrypt prim key b1 s ss ++ xtsDecrypt prim key b2 (s + m) ss := by
  unfold xtsDecrypt
  have hlen : (b1 ++ b2).length / ss = m + b2.length / ss := by
    rw [List.length_append, hb1, Nat.mul_add_div hss]
  rw [hlen, hb1, Nat.mul_div_cancel_left _ hss, List.range_add, List.map_append,
    List.flatten_append, List.map_map]
  congr 1
  · refine congrArg List.flatten (List.map_congr_left ?_)
    intro i hi
    have hi2 : i < m := List.mem_range.mp hi
    have h1 : i * ss ≤ b1.length := by
      rw [hb1, Nat.mul_comm ss m]
      exact Nat.mul_le_mul_right ss (Nat.le_of_lt hi2)
    rw [List.drop_append_of_le_length h1]
    have h2 : ss ≤ (b1.drop (i * ss)).length := by
      rw [List.length_drop, hb1]
      have h3 : (i + 1) * ss ≤ m * ss := Nat.mul_le_mul_right ss hi2
      rw [Nat.succ_mul] at h3
      have h4 : ss * m = m * ss := Nat.mul_comm ss m
      omega
    rw [List.take_append_of_le_length h2]
  · refine congrArg List.flatten (List.map_congr_left ?_)
    intro x _
    have h3 : (m + x) * ss = b1.length + x * ss := by rw [hb1]; ring
    simp only [Function.comp_apply]
    rw [h3, List.drop_append]
    congr 1
    omega

theorem xtsDecrypt_ident (key : Nat) (buf : List Nat) (s ss n : Nat)
    (hss : 0 < ss) (hb : buf.length = ss * n) :
    xtsDecrypt (fun _ _ c => c) key buf s ss = buf := by
  induction n generalizing buf s with
  | zero =>
    have hnil : buf = [] := List.eq_nil_of_length_eq_zero (by omega)
    subst hnil
    simp [xtsDecrypt]
  | succ m ih =>
    have hdecomp : buf = buf.take ss ++ buf.drop ss := (List.take_append_drop ss buf).symm
    have htl : (buf.take ss).length = ss * 1 := by
      rw [List.length_take]
      have h5 : ss * (m + 1) = ss * m + ss := by ring
      omega
    calc xtsDecrypt (fun _ _ c => c) key buf s ss
        = xtsDecrypt (fun _ _ c => c) key (buf.take ss ++ buf.drop ss) s ss := by
          rw [← hdecomp]
      _ = xtsDecrypt (fun _ _ c => c) key (buf.take ss) s ss ++
            xtsDecrypt (fun _ _ c => c) key (buf.drop ss) (s + 1) ss :=
          xtsDecrypt_append _ _ _ _ _ _ _ hss htl
      _ = buf.take ss ++ buf.drop ss := by
          congr 1
          · unfold xtsDecrypt
            rw [htl, Nat.mul_div_cancel_left _ hss, show List.range 1 = [0] by rfl]
            simp [List.take_take]
          · refine ih (buf.drop ss) (s + 1) ?_
            rw [List.length_drop, hb]
            have h5 : ss * (m + 1) = ss * m + ss := by ring
            omega
      _ = buf := hdecomp.symm

theorem xtsDecrypt_length (prim : Nat → Nat → List Nat → List Nat) (key : Nat)
    (buf : List Nat) (s ss n : Nat) (hss : 0 < ss)
    (hp : ∀ k i c, (prim k i c).length = c.length) (hb : buf.length = ss * n) :
    (xtsDecrypt prim key buf s ss).length = ss * n := by
  induction n generalizing buf s with
  | zero =>
    have hnil : buf = [] := List.eq_nil_of_length_eq_zero (by omega)
    subst hnil
    simp [xtsDecrypt]
  | succ m ih =>
    have hdecomp : buf = buf.take ss ++ buf.drop ss := (List.take_append_drop ss buf).symm
    have htl : (buf.take ss).length = ss * 1 := by
      rw [List.length_take]
      have h5 : ss * (m + 1) = ss * m + ss := by ring
      omega
    rw [hdecomp, xtsDecrypt_append _ _ _ _ _ _ _ hss htl, List.length_append]
    have h1 : (xtsDecrypt prim key (buf.take ss) s ss).length = ss := by
      unfold xtsDecrypt
      rw [htl, Nat.mul_div_cancel_left _ hss, show List.range 1 = [0] by rfl]
      simp only [List.map_cons, List.map_nil, List.flatten_cons, List.flatten_nil,
        List.append_nil, hp, Nat.zero_mul, List.drop_zero, List.take_take, Nat.min_self]
      rw [htl]
      omega
    have h2 : (xtsDecrypt prim key (buf.drop ss) (s + 1) ss).length = ss * m := by
      refine ih (buf.drop ss) (s + 1) ?_
      rw [List.length_drop, hb]
      have h5 : ss * (m + 1) = ss * m + ss := by ring
      omega
    rw [h1, h2]
    ring


/-- The per-slot condition under which the section loop of `Nca::from_file`
passes a slot without panicking (rights id unset): the FS header is absent,
or it has version 2 and a `Pfs0` superblock. -/
def slotOk : RawSectionEntry × Option RawFsHeader → Bool
  | (_, none) => true
  | (_, some fs) =>
    (fs.version == 2) && (match fs.superblock with | .pfs0 _ => true | .romFs => false)

theorem parse_sections_isSome (hri : Bool) (l : List (RawSectionEntry × Option RawFsHeader))
    (out : List (Option SectionJson)) (h : parse_sections hri l = .ok out)
    (i : Nat) (dse : RawSectionEntry) :
    (out.getD i none).isSome = ((l.getD i (dse, none)).2).isSome := by
  induction l generalizing out i with
  | nil =>
    simp only [parse_sections] at h
    cases h
    simp
  | cons hd tl ih =>
    obtain ⟨se, fs?⟩ := hd
    cases fs? with
    | none =>
      simp only [parse_sections] at h
      cases hr : parse_sections hri tl with
      | ok l2 =>
        rw [hr] at h
        simp only [NResult.map_ok] at h
        cases h
        cases i with
        | zero => simp
        | succ j => simpa using ih l2 hr j
      | err e => rw [hr] at h; simp only [NResult.map_err] at h; cases h
      | panic p => rw [hr] at h; simp only [NResult.map_panic] at h; cases h
    | some fs =>
      simp only [parse_sections] at h
      cases hri with
      | true => simp only [if_true] at h; cases h
      | false =>
        simp only [if_false, Bool.false_eq_true] at h
        by_cases hv : fs.version = 2
        · rw [if_pos hv] at h
          cases hsb : fs.superblock with
          | pfs0 s =>
            rw [hsb] at h
            cases hr : parse_sections false tl with
            | ok l2 =>
              rw [hr] at h
              simp only [NResult.map_ok] at h
              cases h
              cases i with
              | zero => simp
              | succ j => simpa using ih l2 hr j
            | err e => rw [hr] at h; simp only [NResult.map_err] at h; cases h
            | panic p => rw [hr] at h; simp only [NResult.map_panic] at h; cases h
          | romFs => rw [hsb] at h; cases h
        · rw [if_neg hv] at h
          cases h

theorem parse_sections_length (hri : Bool) (l : List (RawSectionEntry × Option RawFsHeader))
    (out : List (Option SectionJson)) (h : parse_sections hri l = .ok out) :
    out.length = l.length := by
  induction l generalizing out with
  | nil => simp only [parse_sections] at h; cases h; rfl
  | cons hd tl ih =>
    obtain ⟨se, fs?⟩ := hd
    cases fs? with
    | none =>
      simp only [parse_sections] at h
      cases hr : parse_sections hri tl with
      | ok l2 =>
        rw [hr] at h
        simp only [NResult.map_ok] at h
        cases h
        simpa using ih l2 hr
      | err e => rw [hr] at h; simp only [NResult.map_err] at h; cases h
      | panic p => rw [hr] at h; simp only [NResult.map_panic] at h; cases h
    | some fs =>
      simp only [parse_sections] at h
      cases hri with
      | true => simp only [if_true] at h; cases h
      | false =>
        simp only [if_false, Bool.false_eq_true] at h
        by_cases hv : fs.version = 2
        · rw [if_pos hv] at h
          cases hsb : fs.superblock with
          | pfs0 s =>
            rw [hsb] at h
            cases hr : parse_sections false tl with
            | ok l2 =>
              rw [hr] at h
              simp only [NResult.map_ok] at h
              cases h
              simpa using ih l2 hr
            | err e => rw [hr] at h; simp only [NResult.map_err] at h; cases h
            | panic p => rw [hr] at h; simp only [NResult.map_panic] at h; cases h
          | romFs => rw [hsb] at h; cases h
        · rw [if_neg hv] at h
          cases h

theorem parse_sections_version_panic (good : List (RawSectionEntry × Option RawFsHeader))
    (se : RawSectionEntry) (fs : RawFsHeader) (tail : List (RawSectionEntry × Option RawFsHeader))
    (hgood : good.all slotOk = true) (hv : fs.version ≠ 2) :
    parse_sections false (good ++ (se, some fs) :: tail) =
      .panic (.assertViolation "Invalid NCA FS Header version") := by
  induction good with
  | nil =>
    simp only [List.nil_append, parse_sections, if_false, Bool.false_eq_true, if_neg hv]
  | cons hd tl ih =>
    rw [List.all_cons, Bool.and_eq_true] at hgood
    obtain ⟨hhd, htl⟩ := hgood
    obtain ⟨sx, fsx?⟩ := hd
    cases fsx? with
    | none =>
      simp only [List.cons_append, parse_sections, List.append_eq]
      rw [ih htl]
      rfl
    | some fsx =>
      simp only [slotOk, Bool.and_eq_true, beq_iff_eq] at hhd
      obtain ⟨hver, hsb⟩ := hhd
      cases hsbv : fsx.superblock with
      | pfs0 s =>
        simp only [List.cons_append, parse_sections, List.append_eq, if_false,
          Bool.false_eq_true, if_pos hver, hsbv]
        rw [ih htl]
        rfl
      | romFs => rw [hsbv] at hsb; cases hsb

theorem decrypt_header_ok_inv (env : Prims) (pki : Keys) (stream : List Nat)
    (raw : RawNca) (rest : List Nat)
    (h : decrypt_header env pki stream = .ok (raw, rest)) :
    ∃ k, pki.header_key = some k ∧ 0xC00 ≤ stream.length ∧
      decrypted_magic env k stream = ncaMagic3 ∧
      raw = env.readLe (xtsDecrypt env.xtsSector k (stream.take 0xC00) 0 0x200) ∧
      rest = stream.drop 0xC00 := by
  unfold decrypt_header at h
  by_cases hlen : stream.length < 0xC00
  · rw [if_pos hlen] at h; cases h
  · rw [if_neg hlen] at h
    cases hk : pki.header_key with
    | none => rw [hk] at h; cases h
    | some k =>
      rw [hk] at h
      dsimp only at h
      by_cases hm3 : decrypted_magic env k stream = ncaMagic3
      · rw [if_pos hm3] at h
        refine ⟨k, rfl, by omega, hm3, ?_, ?_⟩
        · cases h; rfl
        · cases h; rfl
      · rw [if_neg hm3] at h
        by_cases hm2 : decrypted_magic env k stream = ncaMagic2
        · rw [if_pos hm2] at h; cases h
        · rw [if_neg hm2] at h
          by_cases hm0 : decrypted_magic env k stream = ncaMagic0
          · rw [if_pos hm0] at h; cases h
          · rw [if_neg hm0] at h; cases h

theorem from_file_ok_inv (env : Prims) (pki : Keys) (stream : List Nat) (nca : Nca)
    (h : Nca.from_file env pki stream = .ok nca) :
    ∃ raw rest fmt kak xk ck sections,
      decrypt_header env pki stream = .ok (raw, rest) ∧
      formatOf raw.magic = .ok fmt ∧
      raw.rights_id = List.replicate 0x10 0 ∧
      get_key_area_key pki (get_master_key_revision raw.crypto_type raw.crypto_type2)
        raw.key_type = .ok kak ∧
      env.deriveXts kak raw.encrypted_xts_key = .ok xk ∧
      env.deriveKey kak raw.encrypted_ctr_key = .ok ck ∧
      parse_sections false (raw.section_entries.zip raw.fs_headers) = .ok sections ∧
      nca = { stream := rest
              json := { format := fmt
                        sig := raw.fixed_key_sig
                        npdm_sig := raw.npdm_sig
                        is_gamecard := raw.is_gamecard != 0
                        content_type := raw.content_type
                        key_revision := get_master_key_revision raw.crypto_type raw.crypto_type2
                        key_type := raw.key_type
                        nca_size := raw.nca_size
                        title_id := raw.title_id
                        sdk_version := raw.sdk_version
                        xts_key := xk
                        ctr_key := ck
                        rights_id := none
                        sections := sections } } := by
  unfold Nca.from_file at h
  cases hd : decrypt_header env pki stream with
  | err e => rw [hd] at h; cases h
  | panic p => rw [hd] at h; cases h
  | ok hr =>
    obtain ⟨raw, rest⟩ := hr
    rw [hd] at h
    simp only [NResult.bind_ok] at h
    cases hf : formatOf raw.magic with
    | err e => rw [hf] at h; cases h
    | panic p => rw [hf] at h; cases h
    | ok fmt =>
      rw [hf] at h
      simp only [NResult.bind_ok] at h
      cases hkak : get_key_area_key pki
          (get_master_key_revision raw.crypto_type raw.crypto_type2) raw.key_type with
      | err e => rw [hkak] at h; cases h
      | panic p => rw [hkak] at h; cases h
      | ok kak =>
        rw [hkak] at h
        simp only [NResult.bind_ok] at h
        split at h
        case isTrue hri0 =>
          have hri : raw.rights_id = List.replicate 0x10 0 := by
            simpa using hri0
          cases hx : env.deriveXts kak raw.encrypted_xts_key with
          | err e => rw [hx] at h; cases h
          | panic p => rw [hx] at h; cases h
          | ok xk =>
            rw [hx] at h
            simp only [NResult.bind_ok] at h
            cases hc : env.deriveKey kak raw.encrypted_ctr_key with
            | err e => rw [hc] at h; cases h
            | panic p => rw [hc] at h; cases h
            | ok ck =>
              rw [hc] at h
              simp only [NResult.map_ok, NResult.bind_ok] at h
              cases hs : parse_sections
                  (decide (raw.rights_id ≠ List.replicate 0x10 0))
                  (raw.section_entries.zip raw.fs_headers) with
              | err e => rw [hs] at h; cases h
              | panic p => rw [hs] at h; cases h
              | ok sections =>
                rw [hs] at h
                simp only [NResult.bind_ok] at h
                cases h
                refine ⟨raw, rest, fmt, kak, xk, ck, sections, rfl, hf, hri, hkak, hx, hc, ?_, rfl⟩
                rw [← hs]
                congr 1
                simp [hri]
        case isFalse hri0 =>
          simp only [NResult.bind_panic] at h
          cases h

/-! ### Concrete evaluation environment -/

/-- A concrete collaborator environment: the per-sector cipher is the
identity, and the header decoder returns a fixed record except that it reads
the magic from offset 0x200 of the buffer (as the real fixed-offset layout
does). -/
def mkEnv (body : RawNca) (dX dK : Nat → List Nat → NResult Nat) : Prims :=
  { xtsSector := fun _ _ c => c
    deriveXts := dX
    deriveKey := dK
    readLe := fun buf => { body with magic := (buf.drop 0x200).take 4 } }

/-- A concrete 0xC00-byte input stream carrying the 4-byte magic `m` at
offset 0x200 and zeros elsewhere. -/
def streamOf (m : List Nat) : List Nat :=
  List.replicate 0x200 0 ++ (m ++ List.replicate 0x9FC 0)

theorem streamOf_length (m : List Nat) (hm : m.length = 4) :
    (streamOf m).length = 0xC00 := by
  rw [streamOf, List.length_append, List.length_append, List.length_replicate,
    List.length_replicate, hm]

theorem streamOf_take_all (m : List Nat) (hm : m.length = 4) :
    (streamOf m).take 0xC00 = streamOf m :=
  List.take_of_length_le (by rw [streamOf_length m hm])

theorem streamOf_drop_all (m : List Nat) (hm : m.length = 4) :
    (streamOf m).drop 0xC00 = [] :=
  List.drop_eq_nil_of_le (by rw [streamOf_length m hm])

theorem streamOf_drop_200 (m : List Nat) :
    (streamOf m).drop 0x200 = m ++ List.replicate 0x9FC 0 := by
  unfold streamOf
  rw [List.drop_left' (List.length_replicate 0x200 0)]

theorem streamOf_magic_at (m : List Nat) (hm : m.length = 4) :
    ((streamOf m).drop 0x200).take 4 = m := by
  rw [streamOf_drop_200, List.take_append_of_le_length (by omega),
    List.take_of_length_le (by omega)]

theorem streamOf_take_400 (m : List Nat) (hm : m.length = 4) :
    (streamOf m).take 0x400 =
      List.replicate 0x200 0 ++ (m ++ List.replicate 0x1FC 0) := by
  unfold streamOf
  rw [show (0x400 : Nat) = (List.replicate 0x200 (0 : Nat)).length + 0x200 from by
      rw [List.length_replicate],
    List.take_append, List.take_append_eq_append_take,
    List.take_of_length_le (by omega), hm, List.take_replicate]
  norm_num

theorem decrypted_magic_streamOf (body : RawNca)
    (dX dK : Nat → List Nat → NResult Nat) (k : Nat) (m : List Nat)
    (hm : m.length = 4) :
    decrypted_magic (mkEnv body dX dK) k (streamOf m) = m := by
  unfold decrypted_magic
  rw [streamOf_take_all m hm, streamOf_take_400 m hm]
  rw [show (mkEnv body dX dK).xtsSector = fun _ _ c => c from rfl]
  rw [xtsDecrypt_ident k _ 0 0x200 2 (by omega) (by
    rw [List.length_append, List.length_append, List.length_replicate,
      List.length_replicate, hm])]
  rw [List.drop_left' (List.length_replicate 0x200 0),
    List.take_append_of_le_length (by omega),
    List.take_of_length_le (by omega)]

theorem decrypt_header_streamOf (body : RawNca)
    (dX dK : Nat → List Nat → NResult Nat) (pki : Keys) (k : Nat)
    (m : List Nat) (hk : pki.header_key = some k) (hm : m.length = 4) :
    decrypt_header (mkEnv body dX dK) pki (streamOf m) =
      if m = ncaMagic3 then .ok ({ body with magic := m }, [])
      else if m = ncaMagic2 then .panic .todo
      else if m = ncaMagic0 then
        .panic (.unimplemented "NCA0 parsing is not implemented yet")
      else .err (.ncaParse "header_key") := by
  unfold decrypt_header
  rw [if_neg (by rw [streamOf_length m hm]; omega), hk]
  dsimp only
  rw [decrypted_magic_streamOf body dX dK k m hm]
  by_cases h3 : m = ncaMagic3
  · rw [if_pos h3, if_pos h3, streamOf_take_all m hm]
    rw [show (mkEnv body dX dK).xtsSector = fun _ _ c => c from rfl]
    rw [xtsDecrypt_ident k _ 0 0x200 6 (by omega) (by rw [streamOf_length m hm])]
    rw [streamOf_drop_all m hm]
    show NResult.ok ({ body with magic := ((streamOf m).drop 0x200).take 4 }, ([] : List Nat)) = _
    rw [streamOf_magic_at m hm]
  · rw [if_neg h3, if_neg h3]

/-- The concrete `Pfs0` superblock used by the witnesses. -/
def pfsW : RawPfs0Superblock :=
  { master_hash := []
    block_size := 4
    hash_table_offset := 5
    hash_table_size := 6
    pfs0_offset := 7
    pfs0_size := 8 }

/-- A concrete raw section-table entry. -/
def entW : RawSectionEntry :=
  { media_start_offset := 0, media_end_offset := 0, unknown1 := 0, unknown2 := 0 }

/-- A concrete present FS header, version 2, with a `Pfs0` superblock. -/
def fshW : RawFsHeader :=
  { version := 2
    crypt_type := 3
    superblock := .pfs0 pfsW
    section_ctr := 11 }

/-- A concrete raw header body: zero rights id, FS headers present at
indices 0 and 2 only. -/
def rawBodyW : RawNca :=
  { magic := ncaMagic3
    fixed_key_sig := []
    npdm_sig := []
    is_gamecard := 0
    content_type := 0
    crypto_type := 0
    key_type := .application
    nca_size := 0
    title_id := 0
    sdk_version := 0
    crypto_type2 := 0
    rights_id := List.replicate 0x10 0
    encrypted_xts_key := []
    encrypted_ctr_key := []
    section_entries := List.replicate 4 entW
    fs_headers := [some fshW, none, some fshW, none] }

/-- A raw header body with a non-zero rights id. -/
def rawRightsW : RawNca :=
  { rawBodyW with rights_id := List.replicate 0xF 0 ++ [1] }

/-- An FS header with the unsupported version 3. -/
def fshBad : RawFsHeader :=
  { fshW with version := 3 }

/-- A raw header body whose first FS header has version 3 instead of 2. -/
def rawBadVerW : RawNca :=
  { rawBodyW with fs_headers := [some fshBad, none, none, none] }

def pkiW : Keys :=
  { header_key := some 0
    key_area_key_application := fun _ => some 1
    key_area_key_ocean := fun _ => none
    key_area_key_system := fun _ => none }

/-- A key set holding only the header key: every key-area table is empty. -/
def pkiNone : Keys :=
  { header_key := some 0
    key_area_key_application := fun _ => none
    key_area_key_ocean := fun _ => none
    key_area_key_system := fun _ => none }

def dxW : Nat → List Nat → NResult Nat := fun _ _ => .ok 7

def dkW : Nat → List Nat → NResult Nat := fun _ _ => .ok 9

def envW : Prims := mkEnv rawBodyW dxW dkW

def envR : Prims := mkEnv rawRightsW dxW dkW

def envV : Prims := mkEnv rawBadVerW dxW dkW

theorem decrypt_header_envW :
    decrypt_header envW pkiW (streamOf ncaMagic3) = .ok (rawBodyW, []) := by
  rw [show envW = mkEnv rawBodyW dxW dkW from rfl,
    decrypt_header_streamOf rawBodyW dxW dkW pkiW 0 ncaMagic3 rfl rfl]
  decide

def secW : SectionJson :=
  { media_start_offset := 0, media_end_offset := 0, unknown1 := 0, unknown2 := 0,
    crypto := 3, fstype := .pfs0 [] 4 5 6 7 8, nounce := 11 }

def ncaJsonW : NcaJson :=
  { format := .nca3, sig := [], npdm_sig := [], is_gamecard := false,
    content_type := 0, key_revision := 0, key_type := .application, nca_size := 0,
    title_id := 0, sdk_version := 0, xts_key := 7, ctr_key := 9, rights_id := none,
    sections := [some secW, none, some secW, none] }

def ncaW : Nca := { stream := [], json := ncaJsonW }

theorem from_file_envW :
    Nca.from_file envW pkiW (streamOf ncaMagic3) = .ok ncaW := by
  unfold Nca.from_file
  rw [decrypt_header_envW]
  decide

/-! ### Claims -/

/-- Claim C1: for every input stream of at least 0xC00 bytes and a key set
containing the header key, `decrypt_header` reads exactly 0xC00 bytes,
decrypts the first 0x400 bytes in place with the header key at sector size
0x200 from sector 0, takes bytes [0x200, 0x204) of that partially-decrypted
buffer as the magic, and on magic NCA3 re-decrypts the entire 0xC00 bytes
from the original ciphertext with the same key and sector parameters before
decoding the buffer as the raw header record; a short read is a fatal I/O
error. -/
theorem decrypt_header_nca3_spec (env : Prims) (pki : Keys) (stream : List Nat)
    (k : Nat) (hk : pki.header_key = some k) :
    (stream.length < 0xC00 → decrypt_header env pki stream = .err .ioShortRead) ∧
    (0xC00 ≤ stream.length →
      decrypted_magic env k stream = ncaMagic3 →
      decrypt_header env pki stream =
        .ok (env.readLe (xtsDecrypt env.xtsSector k (stream.take 0xC00) 0 0x200),
          stream.drop 0xC00)) := by
  constructor
  · intro hlt
    unfold decrypt_header
    rw [if_pos hlt]
  · intro hge hm
    unfold decrypt_header
    rw [if_neg (by omega), hk]
    dsimp only
    rw [if_pos hm]

/-- Witness for C1: a concrete 0xC00-byte stream whose decrypted magic is
NCA3 takes the successful branch, consuming exactly the header bytes. -/
theorem decrypt_header_nca3_spec_witness :
    pkiW.header_key = some 0 ∧ 0xC00 ≤ (streamOf ncaMagic3).length ∧
    decrypted_magic envW 0 (streamOf ncaMagic3) = ncaMagic3 ∧
    decrypt_header envW pkiW (streamOf ncaMagic3) =
      .ok (envW.readLe (xtsDecrypt envW.xtsSector 0
        ((streamOf ncaMagic3).take 0xC00) 0 0x200), (streamOf ncaMagic3).drop 0xC00) :=
  ⟨rfl, (streamOf_length ncaMagic3 rfl).ge,
    decrypted_magic_streamOf rawBodyW dxW dkW 0 ncaMagic3 rfl,
    (decrypt_header_nca3_spec envW pkiW (streamOf ncaMagic3) 0 rfl).2
      (streamOf_length ncaMagic3 rfl).ge
      (decrypted_magic_streamOf rawBodyW dxW dkW 0 ncaMagic3 rfl)⟩

/-- Claim C2: the resolved master-key revision is
`max(crypto_type, crypto_type2)` saturating-subtracted by 1 (never below 0,
which `Nat` subtraction guarantees), with the quoted table values. -/
theorem get_master_key_revision_spec :
    (∀ a b : Nat, get_master_key_revision a b = max a b - 1) ∧
    get_master_key_revision 0 0 = 0 ∧ get_master_key_revision 1 0 = 0 ∧
    get_master_key_revision 0 1 = 0 ∧ get_master_key_revision 3 5 = 4 ∧
    get_master_key_revision 5 3 = 4 := by
  refine ⟨?_, by decide, by decide, by decide, by decide, by decide⟩
  intro a b
  unfold get_master_key_revision
  rw [Nat.max_comm]

/-- Claim C7 (code bug): a missing Ocean-family key at revision 5 is
reported as `MissingKey("key_area_key_application_05")`: the error names the
Application family, not the family that was actually looked up, because the
`format!` string hardcodes `key_area_key_application_`. -/
theorem get_key_area_key_misnames_family :
    get_key_area_key pkiNone 5 .ocean =
      .err (.missingKey "key_area_key_application_05") := by
  decide

/-- Claim C8: when the decrypted magic is none of NCA3, NCA2, NCA0,
`decrypt_header` returns the `NcaParse` error (and in particular neither
panics nor returns any other outcome). -/
theorem decrypt_header_unknown_magic (env : Prims) (pki : Keys)
    (stream : List Nat) (k : Nat) (hk : pki.header_key = some k)
    (hge : 0xC00 ≤ stream.length)
    (h3 : decrypted_magic env k stream ≠ ncaMagic3)
    (h2 : decrypted_magic env k stream ≠ ncaMagic2)
    (h0 : decrypted_magic env k stream ≠ ncaMagic0) :
    decrypt_header env pki stream = .err (.ncaParse "header_key") := by
  unfold decrypt_header
  rw [if_neg (by omega), hk]
  dsimp only
  rw [if_neg h3, if_neg h2, if_neg h0]

/-- Witness for C8: an all-zero magic yields the parse error. -/
theorem decrypt_header_unknown_magic_witness :
    decrypted_magic envW 0 (streamOf [0, 0, 0, 0]) = [0, 0, 0, 0] ∧
    decrypt_header envW pkiW (streamOf [0, 0, 0, 0]) =
      .err (.ncaParse "header_key") :=
  ⟨decrypted_magic_streamOf rawBodyW dxW dkW 0 [0, 0, 0, 0] rfl,
    decrypt_header_unknown_magic envW pkiW (streamOf [0, 0, 0, 0]) 0 rfl
      (streamOf_length [0, 0, 0, 0] rfl).ge
      (by rw [show envW = mkEnv rawBodyW dxW dkW from rfl,
        decrypted_magic_streamOf rawBodyW dxW dkW 0 [0, 0, 0, 0] rfl]; decide)
      (by rw [show envW = mkEnv rawBodyW dxW dkW from rfl,
        decrypted_magic_streamOf rawBodyW dxW dkW 0 [0, 0, 0, 0] rfl]; decide)
      (by rw [show envW = mkEnv rawBodyW dxW dkW from rfl,
        decrypted_magic_streamOf rawBodyW dxW dkW 0 [0, 0, 0, 0] rfl]; decide)⟩

theorem decrypt_header_envR :
    decrypt_header envR pkiW (streamOf ncaMagic3) = .ok (rawRightsW, []) := by
  rw [show envR = mkEnv rawRightsW dxW dkW from rfl,
    decrypt_header_streamOf rawRightsW dxW dkW pkiW 0 ncaMagic3 rfl rfl]
  decide

theorem decrypt_header_envV :
    decrypt_header envV pkiW (streamOf ncaMagic3) = .ok (rawBadVerW, []) := by
  rw [show envV = mkEnv rawBadVerW dxW dkW from rfl,
    decrypt_header_streamOf rawBadVerW dxW dkW pkiW 0 ncaMagic3 rfl rfl]
  decide

/-- Counterexample to claim C4 as stated: on a concrete input whose decrypted
magic is NCA2, `decrypt_header` does not return an `UnsupportedFormat` (or
any other) error value: it hits the `todo!()` panic, i.e. it crashes. -/
theorem decrypt_header_nca2_panics :
    decrypt_header envW pkiW (streamOf ncaMagic2) = .panic .todo := by
  rw [show envW = mkEnv rawBodyW dxW dkW from rfl,
    decrypt_header_streamOf rawBodyW dxW dkW pkiW 0 ncaMagic2 rfl rfl]
  decide

/-- Claim C4 as amended: an input whose decrypted magic is NCA2 makes
`decrypt_header` panic via `todo!()`, and magic NCA0 makes it panic via
`unimplemented!("NCA0 parsing is not implemented yet")`: outcomes distinct
from the `ParseError` and `MissingKey` error returns, and no best-effort
decode is produced. -/
theorem decrypt_header_legacy_magic (env : Prims) (pki : Keys)
    (stream : List Nat) (k : Nat) (hk : pki.header_key = some k)
    (hge : 0xC00 ≤ stream.length)
    (hm : decrypted_magic env k stream = ncaMagic2 ∨
      decrypted_magic env k stream = ncaMagic0) :
    decrypt_header env pki stream =
      (if decrypted_magic env k stream = ncaMagic2 then .panic .todo
        else .panic (.unimplemented "NCA0 parsing is not implemented yet")) := by
  unfold decrypt_header
  rw [if_neg (by omega), hk]
  dsimp only
  rcases hm with hm | hm
  · rw [hm, if_neg (show ncaMagic2 ≠ ncaMagic3 from by decide), if_pos rfl, if_pos rfl]
  · rw [hm, if_neg (show ncaMagic0 ≠ ncaMagic3 from by decide),
      if_neg (show ncaMagic0 ≠ ncaMagic2 from by decide), if_pos rfl,
      if_neg (show ncaMagic0 ≠ ncaMagic2 from by decide)]

/-- Witness for the amended C4: the NCA2 input hits the `todo!()` panic. -/
theorem decrypt_header_legacy_magic_witness :
    decrypted_magic envW 0 (streamOf ncaMagic2) = ncaMagic2 ∧
    decrypt_header envW pkiW (streamOf ncaMagic2) = .panic .todo :=
  ⟨decrypted_magic_streamOf rawBodyW dxW dkW 0 ncaMagic2 rfl, by
    have h := decrypt_header_legacy_magic envW pkiW (streamOf ncaMagic2) 0 rfl
      (streamOf_length ncaMagic2 rfl).ge
      (Or.inl (decrypted_magic_streamOf rawBodyW dxW dkW 0 ncaMagic2 rfl))
    rw [h, if_pos (show decrypted_magic envW 0 (streamOf ncaMagic2) = ncaMagic2 from
      decrypted_magic_streamOf rawBodyW dxW dkW 0 ncaMagic2 rfl)]⟩

/-- Counterexample to claim C3 as stated: with a non-zero rights id and an
empty key-area table, `Nca::from_file` fails with `MissingKey` from the
key-area-key lookup, not with any rights-id outcome: the lookup runs before
the rights-id branch, contradicting both the claimed `UnsupportedFormat`
outcome and the claimed step order. -/
theorem from_file_rights_id_lookup_first :
    Nca.from_file envR pkiNone (streamOf ncaMagic3) =
      .err (.missingKey "key_area_key_application_00") := by
  unfold Nca.from_file
  rw [show envR = mkEnv rawRightsW dxW dkW from rfl,
    decrypt_header_streamOf rawRightsW dxW dkW pkiNone 0 ncaMagic3 rfl rfl]
  decide

/-- Claim C3 as amended: for a decrypted header with non-zero rights id,
`Nca::from_file` first performs the key-area-key lookup; if it fails the
lookup error is returned, and if it succeeds the rights-id branch panics via
`unimplemented!("Rights ID")`. In no case are key-area-derived keys
returned. -/
theorem from_file_rights_id_spec (env : Prims) (pki : Keys) (stream : List Nat)
    (raw : RawNca) (rest : List Nat) (fmt : NcaFormat)
    (hdec : decrypt_header env pki stream = .ok (raw, rest))
    (hfmt : formatOf raw.magic = .ok fmt)
    (hri : raw.rights_id ≠ List.replicate 0x10 0) :
    Nca.from_file env pki stream =
      (get_key_area_key pki
        (get_master_key_revision raw.crypto_type raw.crypto_type2)
        raw.key_type).bind fun _ => .panic (.unimplemented "Rights ID") := by
  unfold Nca.from_file
  rw [hdec]
  simp only [NResult.bind_ok]
  rw [hfmt]
  simp only [NResult.bind_ok]
  have hb : decide (raw.rights_id ≠ List.replicate 0x10 0) = true := by
    simpa using hri
  rw [hb]
  cases hkak : get_key_area_key pki
      (get_master_key_revision raw.crypto_type raw.crypto_type2) raw.key_type with
  | err e => simp [NResult.bind]
  | panic p => simp [NResult.bind]
  | ok kak => simp [NResult.bind]

/-- Witness for the amended C3: non-zero rights id with the key-area key
present ends in the `unimplemented!("Rights ID")` panic. -/
theorem from_file_rights_id_spec_witness :
    rawRightsW.rights_id ≠ List.replicate 0x10 0 ∧
    Nca.from_file envR pkiW (streamOf ncaMagic3) =
      (get_key_area_key pkiW
        (get_master_key_revision rawRightsW.crypto_type rawRightsW.crypto_type2)
        rawRightsW.key_type).bind fun _ => .panic (.unimplemented "Rights ID") :=
  ⟨by decide,
    from_file_rights_id_spec envR pkiW (streamOf ncaMagic3) rawRightsW [] .nca3
      decrypt_header_envR (by decide) (by decide)⟩

/-- Counterexample to claim C5 as stated: a present FS header with version 3
does not produce a `ValidationError` (or any error value): `Nca::from_file`
hits the `assert_eq!(fs.version, 2)` panic. -/
theorem from_file_bad_version_panics :
    Nca.from_file envV pkiW (streamOf ncaMagic3) =
      .panic (.assertViolation "Invalid NCA FS Header version") := by
  unfold Nca.from_file
  rw [show envV = mkEnv rawBadVerW dxW dkW from rfl,
    decrypt_header_streamOf rawBadVerW dxW dkW pkiW 0 ncaMagic3 rfl rfl]
  decide

/-- Claim C5 as amended: when the supported path (zero rights id, key and
derivations available) reaches the section loop and the first not-obviously-
fine slot holds an FS header whose version is not 2, parsing panics on the
`assert_eq!(fs.version, 2)` assertion; decoding never proceeds to interpret
that superblock and no container is returned. -/
theorem from_file_bad_version_spec (env : Prims) (pki : Keys) (stream : List Nat)
    (raw : RawNca) (rest : List Nat) (fmt : NcaFormat) (kak xk ck : Nat)
    (good : List (RawSectionEntry × Option RawFsHeader)) (se : RawSectionEntry)
    (fs : RawFsHeader) (tail : List (RawSectionEntry × Option RawFsHeader))
    (hdec : decrypt_header env pki stream = .ok (raw, rest))
    (hfmt : formatOf raw.magic = .ok fmt)
    (hri : raw.rights_id = List.replicate 0x10 0)
    (hkak : get_key_area_key pki
      (get_master_key_revision raw.crypto_type raw.crypto_type2) raw.key_type = .ok kak)
    (hdx : env.deriveXts kak raw.encrypted_xts_key = .ok xk)
    (hdk : env.deriveKey kak raw.encrypted_ctr_key = .ok ck)
    (hsplit : raw.section_entries.zip raw.fs_headers = good ++ (se, some fs) :: tail)
    (hgood : good.all slotOk = true) (hv : fs.version ≠ 2) :
    Nca.from_file env pki stream =
      .panic (.assertViolation "Invalid NCA FS Header version") := by
  unfold Nca.from_file
  rw [hdec]
  simp only [NResult.bind_ok]
  rw [hfmt]
  simp only [NResult.bind_ok]
  rw [hkak]
  simp only [NResult.bind_ok]
  have hb : decide (raw.rights_id ≠ List.replicate 0x10 0) = false := by
    simp [hri]
  rw [hb]
  simp only [Bool.not_false, if_true]
  rw [hdx]
  simp only [NResult.bind_ok]
  rw [hdk]
  simp only [NResult.map_ok, NResult.bind_ok]
  rw [hsplit, parse_sections_version_panic good se fs tail hgood hv]
  simp only [NResult.bind_panic]

/-- Witness for the amended C5: the concrete version-3 FS header triggers
the assertion panic. -/
theorem from_file_bad_version_spec_witness :
    fshBad.version ≠ 2 ∧
    Nca.from_file envV pkiW (streamOf ncaMagic3) =
      .panic (.assertViolation "Invalid NCA FS Header version") :=
  ⟨by decide,
    from_file_bad_version_spec envV pkiW (streamOf ncaMagic3) rawBadVerW [] .nca3
      1 7 9 [] entW fshBad [(entW, none), (entW, none), (entW, none)]
      decrypt_header_envV (by decide) (by decide) (by decide) rfl rfl (by decide)
      rfl (by decide)⟩

theorem zip_getD_snd {α β : Type} (e : List α) (f : List β) (i : Nat)
    (d1 : α) (d2 : β) (hl : e.length = f.length) :
    ((e.zip f).getD i (d1, d2)).2 = f.getD i d2 := by
  by_cases hi : i < f.length
  · have hiz : i < (e.zip f).length := by rw [List.length_zip]; omega
    rw [List.getD_eq_getElem _ _ hiz, List.getD_eq_getElem _ _ hi, List.getElem_zip]
  · rw [List.getD_eq_default _ _ (by rw [List.length_zip]; omega),
      List.getD_eq_default _ _ (by omega)]

/-- Under a length-preserving per-sector cipher, the bytes at
`[0x200, 0x204)` of the full-buffer decryption agree with those of the
first-0x400-bytes decryption: both are a prefix of the sector-1 decryption
of the same ciphertext sector. -/
theorem xtsDecrypt_magic_agree (prim : Nat → Nat → List Nat → List Nat)
    (k : Nat) (buf : List Nat) (hb : buf.length = 0xC00)
    (hlp : ∀ kk i c, (prim kk i c).length = c.length) :
    ((xtsDecrypt prim k buf 0 0x200).drop 0x200).take 4 =
      ((xtsDecrypt prim k (buf.take 0x400) 0 0x200).drop 0x200).take 4 := by
  have hsplit : buf = buf.take 0x400 ++ buf.drop 0x400 :=
    (List.take_append_drop _ _).symm
  have ht : (buf.take 0x400).length = 0x200 * 2 := by
    rw [List.length_take]; omega
  have hlen4 : (xtsDecrypt prim k (buf.take 0x400) 0 0x200).length = 0x200 * 2 :=
    xtsDecrypt_length prim k _ 0 0x200 2 (by omega) hlp ht
  conv_lhs => rw [hsplit]
  rw [xtsDecrypt_append prim k _ _ 0 0x200 2 (by omega) ht,
    List.drop_append_of_le_length (by omega),
    List.take_append_of_le_length (by rw [List.length_drop, hlen4]; omega)]

/-- Claim C6: for every successfully parsed container, the section table
holds `Some` at index i exactly when the raw header FS-header slot i is
present, and `None` otherwise. -/
theorem from_file_sections_iff (env : Prims) (pki : Keys) (stream : List Nat)
    (raw : RawNca) (rest : List Nat) (nca : Nca) (i : Nat)
    (hdec : decrypt_header env pki stream = .ok (raw, rest))
    (hse : raw.section_entries.length = 4) (hfh : raw.fs_headers.length = 4)
    (hok : Nca.from_file env pki stream = .ok nca) :
    (nca.json.sections.getD i none).isSome =
      (raw.fs_headers.getD i none).isSome := by
  obtain ⟨raw2, rest2, fmt, kak, xk, ck, sections, hdec2, hfmt, hri, hkak, hdx,
    hdk, hs, hnca⟩ := from_file_ok_inv env pki stream nca hok
  rw [hdec] at hdec2
  injection hdec2 with hpair
  injection hpair with hraw hrest
  subst hraw
  subst hrest
  rw [hnca]
  show (sections.getD i none).isSome = (raw.fs_headers.getD i none).isSome
  rw [parse_sections_isSome false _ sections hs i entW,
    show ((entW, (none : Option RawFsHeader))) = ((entW,
      (none : Option RawFsHeader)).1, (entW, (none : Option RawFsHeader)).2) from rfl]
  rw [zip_getD_snd raw.section_entries raw.fs_headers i _ _ (by omega)]

/-- Witness for C6: the concrete successful parse has FS headers present at
indices 0 and 2 only, and its section table is `Some` at exactly those
indices. -/
theorem from_file_sections_iff_witness :
    (ncaW.json.sections.getD 0 none).isSome =
      (rawBodyW.fs_headers.getD 0 none).isSome ∧
    (ncaW.json.sections.getD 1 none).isSome =
      (rawBodyW.fs_headers.getD 1 none).isSome :=
  ⟨from_file_sections_iff envW pkiW (streamOf ncaMagic3) rawBodyW [] ncaW 0
      decrypt_header_envW (by decide) (by decide) from_file_envW,
    from_file_sections_iff envW pkiW (streamOf ncaMagic3) rawBodyW [] ncaW 1
      decrypt_header_envW (by decide) (by decide) from_file_envW⟩

/-- Claim C9 (implicit): with a length-preserving cipher and a header decoder
that reads the magic from offset 0x200, every container handle that
`Nca::from_file` returns successfully carries format tag `Nca3`: the NCA2 and
NCA0 decryption branches never complete, and the re-decrypted magic of a
successful decryption is again NCA3. -/
theorem from_file_format_nca3 (env : Prims) (pki : Keys) (stream : List Nat)
    (nca : Nca) (k : Nat) (hk : pki.header_key = some k)
    (hlp : ∀ kk i c, (env.xtsSector kk i c).length = c.length)
    (hrl : ∀ buf, (env.readLe buf).magic = (buf.drop 0x200).take 4)
    (hok : Nca.from_file env pki stream = .ok nca) :
    nca.json.format = NcaFormat.nca3 := by
  obtain ⟨raw, rest, fmt, kak, xk, ck, sections, hdec, hfmt, hri, hkak, hdx,
    hdk, hs, hnca⟩ := from_file_ok_inv env pki stream nca hok
  obtain ⟨k2, hk2, hge, hmag, hraw, hrest⟩ :=
    decrypt_header_ok_inv env pki stream raw rest hdec
  rw [hk] at hk2
  injection hk2 with hkk
  subst hkk
  have hm : raw.magic = ncaMagic3 := by
    rw [hraw, hrl]
    have hb : (stream.take 0xC00).length = 0xC00 := by
      rw [List.length_take]; omega
    rw [xtsDecrypt_magic_agree env.xtsSector k (stream.take 0xC00) hb hlp]
    exact hmag
  rw [hm] at hfmt
  have hfmt2 : fmt = NcaFormat.nca3 := by
    unfold formatOf at hfmt
    rw [if_pos rfl] at hfmt
    injection hfmt with h
    exact h.symm
  rw [hnca]
  show fmt = NcaFormat.nca3
  exact hfmt2

/-- Witness for C9: the concrete successful parse carries format `Nca3`. -/
theorem from_file_format_nca3_witness : ncaW.json.format = NcaFormat.nca3 :=
  from_file_format_nca3 envW pkiW (streamOf ncaMagic3) ncaW 0 rfl
    (fun _ _ _ => rfl) (fun _ => rfl) from_file_envW

/-- Claim C10 (implicit): the `key_revision` of every successfully parsed
container is at most 254, since it is the max of two bytes
saturating-subtracted by 1. -/
theorem from_file_key_revision_le (env : Prims) (pki : Keys) (stream : List Nat)
    (raw : RawNca) (rest : List Nat) (nca : Nca)
    (hdec : decrypt_header env pki stream = .ok (raw, rest))
    (h1 : raw.crypto_type < 256) (h2 : raw.crypto_type2 < 256)
    (hok : Nca.from_file env pki stream = .ok nca) :
    nca.json.key_revision ≤ 254 := by
  obtain ⟨raw2, rest2, fmt, kak, xk, ck, sections, hdec2, hfmt, hri, hkak, hdx,
    hdk, hs, hnca⟩ := from_file_ok_inv env pki stream nca hok
  rw [hdec] at hdec2
  injection hdec2 with hpair
  injection hpair with hraw hrest
  subst hraw
  subst hrest
  rw [hnca]
  show get_master_key_revision raw.crypto_type raw.crypto_type2 ≤ 254
  unfold get_master_key_revision
  cases Nat.le_total raw.crypto_type raw.crypto_type2 with
  | inl h => rw [Nat.max_eq_left h]; omega
  | inr h => rw [Nat.max_eq_right h]; omega

/-- Witness for C10: the concrete successful parse has key revision 0. -/
theorem from_file_key_revision_le_witness :
    rawBodyW.crypto_type < 256 ∧ rawBodyW.crypto_type2 < 256 ∧
    ncaW.json.key_revision ≤ 254 :=
  ⟨by decide, by decide,
    from_file_key_revision_le envW pkiW (streamOf ncaMagic3) rawBodyW [] ncaW
      decrypt_header_envW (by decide) (by decide) from_file_envW⟩

end Linkle
